import Mathlib

/-!
Shallow embedding of the shogi engine in `shogi_game.py` and
`pygame_shogi.py` (classes `ShogiPiece`, `ShogiBoard`, `ShogiGame`,
`PyGameShogi`).

Conventions of the embedding:
* Python `int` is `Int`; player identifiers stay `Int` (1 = Sente, 2 = Gote)
  exactly as in the source.
* the 9x9 board (a list of lists of `ShogiPiece` or `None`) is a total
  function `Int → Int → Option ShogiPiece`; every state built here is `none`
  outside `0 ≤ r,c < 9`, and all in-repository accesses are index-guarded,
  so the list/function difference is unobservable for the claims below.
* the hands dictionary `captured_pieces : {1: [...], 2: [...]}` is a function
  `Int → List ShogiPiece` updated at the key `current_player`, matching the
  dictionary for the keys 1 and 2 (the only keys the dictionary ever has).
* methods that mutate `self.board` and restore it (`move_piece`,
  `can_escape_check`, ...) are state-passing functions returning
  `Bool × GameState`; methods with no assignment statements
  (`get_piece_moves`, `is_in_check`, `find_king`, `_can_promote`) are pure.
* `move_piece` reads the promotion answer from `input()`; the answer is the
  explicit argument `promote` here, consulted — as in the source — only when
  `_can_promote` holds.
-/

/-- Piece kinds of `shogi_game.py`: the strings 歩 (pawn), 香 (lance),
桂 (knight), 銀 (silver), 金 (gold), 角 (bishop), 飛 (rook), 王 (Sente king),
玉 (Gote king) become a closed enum. -/
inductive PieceType where
  | fu | kyo | kei | gin | kin | kaku | hi | ou | gyoku
deriving DecidableEq, Repr

/-- `ShogiPiece.__init__`: type, owning player and promotion flag. -/
structure ShogiPiece where
  piece_type : PieceType
  player : Int
  promoted : Bool
deriving DecidableEq, Repr

/-- The board of `ShogiBoard.__init__`: a 9x9 grid of optional pieces,
as a total function on integer coordinates. -/
def Board : Type := Int → Int → Option ShogiPiece

/-- The mutable state of a `ShogiBoard` object: board, hand dictionary and
player to move. -/
@[ext] structure GameState where
  board : Board
  captured_pieces : Int → List ShogiPiece
  current_player : Int

/-- A single assignment `self.board[r][c] = v`. -/
def set_cell (s : GameState) (r c : Int) (v : Option ShogiPiece) : GameState :=
  { s with board := fun r' c' => if r' = r ∧ c' = c then v else s.board r' c' }

/-- `ShogiBoard.is_valid_position`: `0 <= row < 9 and 0 <= col < 9`. -/
def is_valid_position (row col : Int) : Bool :=
  decide (0 ≤ row ∧ row < 9 ∧ 0 ≤ col ∧ col < 9)

/-- The occupancy test repeated through `get_piece_moves`:
`not board[nr][nc] or board[nr][nc].player != player`. -/
def can_occupy (b : Board) (player nr nc : Int) : Bool :=
  match b nr nc with
  | none => true
  | some q => decide (q.player ≠ player)

/-- One-step candidate generation: appends `(row+dr, col+dc)` for each
direction that lands on a valid square that is empty or enemy-occupied,
in the order of the direction list (the `moves.append` loops of
`get_piece_moves`). -/
def step_moves (b : Board) (player row col : Int) :
    List (Int × Int) → List (Int × Int)
  | [] => []
  | (dr, dc) :: rest =>
      let nr := row + dr
      let nc := col + dc
      if is_valid_position nr nc && can_occupy b player nr nc then
        (nr, nc) :: step_moves b player row col rest
      else
        step_moves b player row col rest

/-- The ray index list `range(1, 9)` of the sliding loops. -/
def range18 : List Int := [1, 2, 3, 4, 5, 6, 7, 8]

/-- One sliding ray: squares `(row + dr*i, col + dc*i)` for `i = 1..8`,
stopping at the board edge, stopping on (and including) the first enemy
piece, stopping before a friendly piece — the `for i in range(1, 9)` loops
of `get_piece_moves`. -/
def slide_loop (b : Board) (player row col dr dc : Int) :
    List Int → List (Int × Int)
  | [] => []
  | i :: rest =>
      let nr := row + dr * i
      let nc := col + dc * i
      if ¬ is_valid_position nr nc then []
      else
        match b nr nc with
        | some q => if q.player ≠ player then [(nr, nc)] else []
        | none => (nr, nc) :: slide_loop b player row col dr dc rest

/-- Several rays in sequence (the `for dr, dc in directions` loops around
the sliding loops). -/
def slide_dirs (b : Board) (player row col : Int) :
    List (Int × Int) → List (Int × Int)
  | [] => []
  | (dr, dc) :: rest =>
      slide_loop b player row col dr dc range18 ++
        slide_dirs b player row col rest

/-- Gold directions of `_get_gold_moves`, with the row direction negated
for player 2. -/
def gold_dirs (player : Int) : List (Int × Int) :=
  let directions : List (Int × Int) := [(-1, -1), (-1, 0), (-1, 1), (0, -1), (0, 1), (1, 0)]
  if player = 2 then directions.map (fun d => (d.1 * -1, d.2)) else directions

/-- `ShogiBoard._get_gold_moves`. -/
def get_gold_moves (b : Board) (row col player : Int) : List (Int × Int) :=
  step_moves b player row col (gold_dirs player)

/-- Silver directions, negated in the row for player 2, as in the 銀 branch. -/
def silver_dirs (player : Int) : List (Int × Int) :=
  let directions : List (Int × Int) := [(-1, -1), (-1, 0), (-1, 1), (1, -1), (1, 1)]
  if player = 2 then directions.map (fun d => (d.1 * -1, d.2)) else directions

/-- Knight jump offsets of the 桂 branch. -/
def knight_dirs (player : Int) : List (Int × Int) :=
  if player = 1 then [(-2, -1), (-2, 1)] else [(2, -1), (2, 1)]

/-- The eight king directions of the 王/玉 branch, in the loop's order
(`dr` outer, `dc` inner, skipping `(0,0)`). -/
def king_dirs : List (Int × Int) :=
  [(-1, -1), (-1, 0), (-1, 1), (0, -1), (0, 1), (1, -1), (1, 0), (1, 1)]

/-- `ShogiBoard.get_piece_moves_for_type`: unpromoted bishop or rook rays,
anything else gives no moves. -/
def get_piece_moves_for_type (b : Board) (pt : PieceType)
    (row col player : Int) (promoted : Bool) : List (Int × Int) :=
  if pt = PieceType.kaku ∧ promoted = false then
    slide_dirs b player row col [(-1, -1), (-1, 1), (1, -1), (1, 1)]
  else if pt = PieceType.hi ∧ promoted = false then
    slide_dirs b player row col [(-1, 0), (1, 0), (0, -1), (0, 1)]
  else []

/-- The per-kind dispatch of `get_piece_moves` (everything after the
ownership gate). -/
def moves_for (b : Board) (piece : ShogiPiece) (row col : Int) :
    List (Int × Int) :=
  let player := piece.player
  let promoted := piece.promoted
  match piece.piece_type with
  | PieceType.fu =>
      if ¬ promoted then
        step_moves b player row col [((if player = 1 then -1 else 1 : Int), 0)]
      else get_gold_moves b row col player
  | PieceType.ou => step_moves b player row col king_dirs
  | PieceType.gyoku => step_moves b player row col king_dirs
  | PieceType.kin => get_gold_moves b row col player
  | PieceType.gin =>
      if ¬ promoted then step_moves b player row col (silver_dirs player)
      else get_gold_moves b row col player
  | PieceType.kei =>
      if ¬ promoted then step_moves b player row col (knight_dirs player)
      else get_gold_moves b row col player
  | PieceType.kyo =>
      if ¬ promoted then
        slide_loop b player row col (if player = 1 then -1 else 1) 0 range18
      else get_gold_moves b row col player
  | PieceType.kaku =>
      if ¬ promoted then
        slide_dirs b player row col [(-1, -1), (-1, 1), (1, -1), (1, 1)]
      else
        get_piece_moves_for_type b PieceType.kaku row col player false ++
          step_moves b player row col [(-1, 0), (0, -1), (0, 1), (1, 0)]
  | PieceType.hi =>
      if ¬ promoted then
        slide_dirs b player row col [(-1, 0), (1, 0), (0, -1), (0, 1)]
      else
        get_piece_moves_for_type b PieceType.hi row col player false ++
          step_moves b player row col [(-1, -1), (-1, 1), (1, -1), (1, 1)]

/-- `ShogiBoard.get_piece_moves`: empty for an empty square or a piece not
owned by `current_player`, otherwise the kind dispatch above. -/
def get_piece_moves (s : GameState) (row col : Int) : List (Int × Int) :=
  match s.board row col with
  | none => []
  | some piece =>
      if piece.player ≠ s.current_player then []
      else moves_for s.board piece row col

/-- The row-major traversal `for row in range(9): for col in range(9)`. -/
def all_squares : List (Int × Int) :=
  ([0, 1, 2, 3, 4, 5, 6, 7, 8] : List Int).flatMap
    (fun r => ([0, 1, 2, 3, 4, 5, 6, 7, 8] : List Int).map (fun c => (r, c)))

/-- The body of `ShogiBoard.find_king`'s double loop. -/
def find_king_loop (b : Board) (player : Int) :
    List (Int × Int) → Option (Int × Int)
  | [] => none
  | (r, c) :: rest =>
      match b r c with
      | some piece =>
          if piece.player = player ∧
              (piece.piece_type = PieceType.ou ∨ piece.piece_type = PieceType.gyoku) then
            some (r, c)
          else find_king_loop b player rest
      | none => find_king_loop b player rest

/-- `ShogiBoard.find_king`: first square in row-major order holding a 王 or
玉 of the given player, `none` when absent. -/
def find_king (s : GameState) (player : Int) : Option (Int × Int) :=
  find_king_loop s.board player all_squares

/-- `ShogiBoard.is_in_check`: false when the king is absent; otherwise true
iff some square holds an opponent piece whose `get_piece_moves` result
contains the king's square. -/
def is_in_check (s : GameState) (player : Int) : Bool :=
  match find_king s player with
  | none => false
  | some kp =>
      let opponent : Int := if player = 1 then 2 else 1
      all_squares.any fun rc =>
        match s.board rc.1 rc.2 with
        | some piece =>
            decide (piece.player = opponent) &&
              decide (kp ∈ get_piece_moves s rc.1 rc.2)
        | none => false

/-- `ShogiBoard._can_promote`. -/
def can_promote (piece : ShogiPiece) (row : Int) : Bool :=
  if piece.promoted then false
  else if ¬ (piece.piece_type ∈
      [PieceType.fu, PieceType.kyo, PieceType.kei, PieceType.gin,
       PieceType.kaku, PieceType.hi]) then false
  else if piece.player = 1 ∧ row ≤ 2 then true
  else if piece.player = 2 ∧ 6 ≤ row then true
  else false

/-- `ShogiBoard.move_piece` as a state transformer; `promote` stands for the
`input("成りますか？")` answer and is consulted only when `_can_promote`
holds, as in the source. The body mirrors the assignment sequence of lines
295-343: precondition checks, simulate/check/restore against
`is_in_check(current_player)`, capture banking (promotion stripped),
relocation, optional promotion, turn flip. -/
def move_piece (s : GameState) (from_row from_col to_row to_col : Int)
    (promote : Bool) : Bool × GameState :=
  if ¬ (is_valid_position from_row from_col && is_valid_position to_row to_col) then
    (false, s)
  else
    match s.board from_row from_col with
    | none => (false, s)
    | some piece =>
      if piece.player ≠ s.current_player then (false, s)
      else if ¬ ((to_row, to_col) ∈ get_piece_moves s from_row from_col) then (false, s)
      else
        let captured_piece := s.board to_row to_col
        let s1 := set_cell (set_cell s to_row to_col (some piece)) from_row from_col none
        if is_in_check s1 s.current_player then
          (false, set_cell (set_cell s1 from_row from_col (some piece)) to_row to_col captured_piece)
        else
          let s2 := set_cell (set_cell s1 from_row from_col (some piece)) to_row to_col captured_piece
          let s3 :=
            match captured_piece with
            | some cp =>
                { s2 with captured_pieces := fun k =>
                    if k = s2.current_player then
                      s2.captured_pieces k ++ [{ cp with promoted := false }]
                    else s2.captured_pieces k }
            | none => s2
          let s4 := set_cell (set_cell s3 to_row to_col (some piece)) from_row from_col none
          let s5 :=
            if can_promote piece to_row && promote then
              set_cell s4 to_row to_col (some { piece with promoted := true })
            else s4
          (true, { s5 with current_player := if s5.current_player = 1 then 2 else 1 })

/-- One simulate/evaluate/restore round of `can_escape_check`'s inner
`for to_row, to_col in valid_moves` loop, threading the board state. -/
def try_moves (player from_row from_col : Int) (piece : ShogiPiece)
    (s : GameState) : List (Int × Int) → Bool × GameState
  | [] => (false, s)
  | (to_row, to_col) :: rest =>
      let original_piece := s.board to_row to_col
      let s1 := set_cell (set_cell s to_row to_col (some piece)) from_row from_col none
      let check_escaped := ! is_in_check s1 player
      let s2 := set_cell (set_cell s1 from_row from_col (some piece)) to_row to_col original_piece
      if check_escaped then (true, s2)
      else try_moves player from_row from_col piece s2 rest

/-- The outer `for from_row ... for from_col ...` loop of
`can_escape_check`. -/
def escape_loop (player : Int) (s : GameState) :
    List (Int × Int) → Bool × GameState
  | [] => (false, s)
  | (from_row, from_col) :: rest =>
      match s.board from_row from_col with
      | some piece =>
          if piece.player = player then
            let r := try_moves player from_row from_col piece s
              (get_piece_moves s from_row from_col)
            if r.1 then r else escape_loop player r.2 rest
          else escape_loop player s rest
      | none => escape_loop player s rest

/-- `ShogiBoard.can_escape_check`: true at once when not in check, else the
simulation loops over all own pieces. -/
def can_escape_check (s : GameState) (player : Int) : Bool × GameState :=
  if ¬ is_in_check s player then (true, s)
  else escape_loop player s all_squares

/-- `ShogiBoard.is_checkmate`: `is_in_check(player) and not
can_escape_check(player)` with Python's short-circuit `and`. -/
def is_checkmate (s : GameState) (player : Int) : Bool × GameState :=
  if is_in_check s player then
    let r := can_escape_check s player
    (! r.1, r.2)
  else (false, s)

/-- The dictionary returned by `ShogiBoard.get_game_status`. -/
structure GameStatus where
  game_over : Bool
  winner : Option Int
  player1_in_check : Bool
  player2_in_check : Bool
  player1_checkmate : Bool
  player2_checkmate : Bool
deriving DecidableEq, Repr

/-- `ShogiBoard.get_game_status`: the four queries in source order (the two
checkmate queries thread the board state), then `game_over`/`winner`. -/
def get_game_status (s : GameState) : GameStatus × GameState :=
  let player1_in_check := is_in_check s 1
  let player2_in_check := is_in_check s 2
  let r1 := is_checkmate s 1
  let r2 := is_checkmate r1.2 2
  ({ game_over := r1.1 || r2.1
     winner := if r1.1 then some 2 else if r2.1 then some 1 else none
     player1_in_check := player1_in_check
     player2_in_check := player2_in_check
     player1_checkmate := r1.1
     player2_checkmate := r2.1 }, r2.2)

/-- `PyGameShogi.is_valid_move`: the precondition checks shared with
`move_piece` (positions on board, source occupied by the current player,
destination in the piece's move set). -/
def is_valid_move (s : GameState) (from_row from_col to_row to_col : Int) : Bool :=
  if ¬ (is_valid_position from_row from_col && is_valid_position to_row to_col) then
    false
  else
    match s.board from_row from_col with
    | none => false
    | some piece =>
        decide (piece.player = s.current_player) &&
          decide ((to_row, to_col) ∈ get_piece_moves s from_row from_col)

/-- `PyGameShogi.move_piece_with_promotion` (lines 411-450): as
`move_piece`, except that the promotion decision is the parameter `promote`
and is applied without consulting `_can_promote`. -/
def move_piece_with_promotion (s : GameState)
    (from_row from_col to_row to_col : Int) (promote : Bool) : Bool × GameState :=
  if ¬ is_valid_move s from_row from_col to_row to_col then (false, s)
  else
    match s.board from_row from_col with
    | none => (false, s)
    | some piece =>
      let captured_piece := s.board to_row to_col
      let s1 := set_cell (set_cell s to_row to_col (some piece)) from_row from_col none
      if is_in_check s1 s.current_player then
        (false, set_cell (set_cell s1 from_row from_col (some piece)) to_row to_col captured_piece)
      else
        let s2 := set_cell (set_cell s1 from_row from_col (some piece)) to_row to_col captured_piece
        let s3 :=
          match captured_piece with
          | some cp =>
              { s2 with captured_pieces := fun k =>
                  if k = s2.current_player then
                    s2.captured_pieces k ++ [{ cp with promoted := false }]
                  else s2.captured_pieces k }
          | none => s2
        let s4 := set_cell (set_cell s3 to_row to_col (some piece)) from_row from_col none
        let s5 :=
          if promote then set_cell s4 to_row to_col (some { piece with promoted := true })
          else s4
        (true, { s5 with current_player := if s5.current_player = 1 then 2 else 1 })

/-- Python's `str.split('-')`, on the character list of the string: splits at
every dash, keeping empty parts. -/
def split_on_dash : List Char → List (List Char)
  | [] => [[]]
  | c :: rest =>
      if c = '-' then [] :: split_on_dash rest
      else
        match split_on_dash rest with
        | [] => [[c]]
        | p :: ps => (c :: p) :: ps

/-- The decimal-digit table consulted by Python `int()` on a one-character
string: `int(chr(cp))` succeeds exactly for the Unicode decimal digits
(category Nd), which form runs of ten consecutive codepoints carrying the
values 0-9 in order. This list holds the codepoint of the digit 0 of every
such run (Unicode database 14.0.0, as compiled into CPython; the ASCII run
starts at 48, the full-width run at 65296). -/
def decimal_digit_starts : List Nat :=
  [48, 1632, 1776, 1984, 2406, 2534, 2662, 2790, 2918, 3046, 3174, 3302,
   3430, 3558, 3664, 3792, 3872, 4160, 4240, 6112, 6160, 6470, 6608, 6784,
   6800, 6992, 7088, 7232, 7248, 42528, 43216, 43264, 43472, 43504, 43600,
   44016, 65296, 66720, 68912, 69734, 69872, 69942, 70096, 70384, 70736,
   70864, 71248, 71360, 71472, 71904, 72016, 72784, 73040, 73120, 92768,
   92864, 93008, 120782, 120792, 120802, 120812, 120822, 123200, 123632,
   125264, 130032]

/-- The start of the decimal-digit run containing `c`, when there is one. -/
def digit_run (c : Char) : Option Nat :=
  decimal_digit_starts.find? (fun s => decide (s ≤ c.toNat ∧ c.toNat < s + 10))

/-- Whether Python `int(c)` succeeds on the one-character string `c`: true
exactly for the Unicode decimal digits, ASCII 0-9 and the other Nd runs
(full-width ７, Arabic-Indic ٧, ...) alike. -/
def is_decimal_digit (c : Char) : Bool := (digit_run c).isSome

/-- The value Python `int(c)` returns for a decimal digit `c`: the offset of
`c` within its run of ten (0 for a character that is no digit; `parse_move`
only consults it behind `is_decimal_digit`). -/
def digit_val (c : Char) : Int :=
  match digit_run c with
  | some s => (c.toNat : Int) - (s : Int)
  | none => 0

/-- `ShogiGame.parse_move`, on the string's character list (Python `str` is
a sequence of Unicode codepoints, so `List Char` loses nothing). The source
splits on `'-'`, requires exactly two parts, and converts characters 0 and 1
of each part with `int(...)`; an `IndexError` (part shorter than 2) or a
`ValueError` (a character `int()` does not accept, per `is_decimal_digit`)
is caught and reported as a parse failure (`none` here). Characters beyond
index 1 of a part are never looked at, and the digit values are not
range-checked. Returns `(from_row, from_col, to_row, to_col)`. -/
def parse_move (cs : List Char) : Option (Int × Int × Int × Int) :=
  match split_on_dash cs with
  | [from_pos, to_pos] =>
      match from_pos, to_pos with
      | f0 :: f1 :: _, t0 :: t1 :: _ =>
          if is_decimal_digit f0 && is_decimal_digit f1 &&
              is_decimal_digit t0 && is_decimal_digit t1 then
            some (digit_val f1 - 1, 9 - digit_val f0, digit_val t1 - 1, 9 - digit_val t0)
          else none
      | _, _ => none
  | _ => none

/-- Back-rank piece kind by column, as laid out by
`setup_initial_position` (column 4, the king, is handled by the caller). -/
def back_rank_kind (c : Int) : PieceType :=
  if c = 0 ∨ c = 8 then PieceType.kyo
  else if c = 1 ∨ c = 7 then PieceType.kei
  else if c = 2 ∨ c = 6 then PieceType.gin
  else PieceType.kin

/-- The board built by `ShogiBoard.setup_initial_position`. -/
def initial_board : Board := fun r c =>
  if 0 ≤ c ∧ c ≤ 8 then
    if r = 0 then
      some ⟨if c = 4 then PieceType.gyoku else back_rank_kind c, 2, false⟩
    else if r = 1 ∧ c = 1 then some ⟨PieceType.hi, 2, false⟩
    else if r = 1 ∧ c = 7 then some ⟨PieceType.kaku, 2, false⟩
    else if r = 2 then some ⟨PieceType.fu, 2, false⟩
    else if r = 6 then some ⟨PieceType.fu, 1, false⟩
    else if r = 7 ∧ c = 1 then some ⟨PieceType.kaku, 1, false⟩
    else if r = 7 ∧ c = 7 then some ⟨PieceType.hi, 1, false⟩
    else if r = 8 then
      some ⟨if c = 4 then PieceType.ou else back_rank_kind c, 1, false⟩
    else none
  else none

/-- The state of a fresh `ShogiBoard()`: initial layout, empty hands,
Sente to move. -/
def initial_state : GameState :=
  { board := initial_board, captured_pieces := fun _ => [], current_player := 1 }

/-- A position with Gote's rook at (0,4) and Sente's king at (8,4) on an
otherwise empty file: by the rook's movement rule the king's square is
attacked, so Sente is in check; Sente to move. -/
def pin_board : Board := fun r c =>
  if r = 0 ∧ c = 4 then some ⟨PieceType.hi, 2, false⟩
  else if r = 8 ∧ c = 4 then some ⟨PieceType.ou, 1, false⟩
  else none

/-- The state holding `pin_board`, Sente to move, empty hands. -/
def pin_state : GameState :=
  { board := pin_board, captured_pieces := fun _ => [], current_player := 1 }

/-- As `pin_state` but with a Sente gold at (7,4) shielding the king: the
gold is pinned — moving it sideways exposes the king to the rook. -/
def pinned_gold_state : GameState :=
  { board := fun r c =>
      if r = 0 ∧ c = 4 then some ⟨PieceType.hi, 2, false⟩
      else if r = 7 ∧ c = 4 then some ⟨PieceType.kin, 1, false⟩
      else if r = 8 ∧ c = 4 then some ⟨PieceType.ou, 1, false⟩
      else none
    captured_pieces := fun _ => []
    current_player := 1 }

/-- A board with no king of either player on it. -/
def kingless_state : GameState :=
  { board := fun _ _ => none, captured_pieces := fun _ => [], current_player := 1 }

/-- A lone Sente gold at (4,4), Sente to move; used to exercise promotion
handling on a piece that can never promote. -/
def lone_gold_state : GameState :=
  { board := fun r c => if r = 4 ∧ c = 4 then some ⟨PieceType.kin, 1, false⟩ else none
    captured_pieces := fun _ => []
    current_player := 1 }

theorem set_cell_board_self (s : GameState) (r c : Int) (v : Option ShogiPiece) :
    (set_cell s r c v).board r c = v := by
  simp [set_cell]

theorem set_cell_board_ne (s : GameState) (r c : Int) (v : Option ShogiPiece)
    (r' c' : Int) (h : ¬ (r' = r ∧ c' = c)) :
    (set_cell s r c v).board r' c' = s.board r' c' := by
  simp only [set_cell]
  exact if_neg h

theorem set_cell_captured (s : GameState) (r c : Int) (v : Option ShogiPiece) :
    (set_cell s r c v).captured_pieces = s.captured_pieces := rfl

theorem set_cell_player (s : GameState) (r c : Int) (v : Option ShogiPiece) :
    (set_cell s r c v).current_player = s.current_player := rfl

theorem simulate_restore (s : GameState) (fr fc tr tc : Int) (piece : ShogiPiece)
    (hf : s.board fr fc = some piece) :
    set_cell (set_cell (set_cell (set_cell s tr tc (some piece)) fr fc none)
        fr fc (some piece)) tr tc (s.board tr tc) = s := by
  refine GameState.ext ?_ rfl rfl
  funext r c
  simp only [set_cell]
  by_cases h1 : r = tr ∧ c = tc
  · obtain ⟨rfl, rfl⟩ := h1
    simp
  · by_cases h2 : r = fr ∧ c = fc
    · obtain ⟨rfl, rfl⟩ := h2
      simp [h1, hf]
    · simp [h1, h2]

theorem get_piece_moves_opponent_nil (s : GameState) (r c : Int) (piece : ShogiPiece)
    (hp : s.board r c = some piece) (hne : piece.player ≠ s.current_player) :
    get_piece_moves s r c = [] := by
  unfold get_piece_moves
  rw [hp]
  simp [hne]

theorem is_in_check_self (s : GameState) : is_in_check s s.current_player = false := by
  unfold is_in_check
  cases hk : find_king s s.current_player with
  | none => rfl
  | some kp =>
      simp only
      rw [List.any_eq_false]
      intro rc _
      cases hp : s.board rc.1 rc.2 with
      | none => simp
      | some piece =>
          simp only [hp]
          by_cases hop : piece.player = (if s.current_player = 1 then 2 else 1)
          · have hne : piece.player ≠ s.current_player := by
              by_cases h1 : s.current_player = 1 <;> simp [h1] at hop <;> omega
            rw [get_piece_moves_opponent_nil s rc.1 rc.2 piece hp hne]
            simp
          · simp [hop]

theorem try_moves_snd (player fr fc : Int) (piece : ShogiPiece) :
    ∀ (ms : List (Int × Int)) (s : GameState), s.board fr fc = some piece →
      (try_moves player fr fc piece s ms).2 = s := by
  intro ms
  induction ms with
  | nil => intro s _; rfl
  | cons m rest ih =>
      intro s h
      obtain ⟨tr, tc⟩ := m
      simp only [try_moves]
      rw [simulate_restore s fr fc tr tc piece h]
      split
      · rfl
      · exact ih s h

theorem escape_loop_snd (player : Int) :
    ∀ (sq : List (Int × Int)) (s : GameState), (escape_loop player s sq).2 = s := by
  intro sq
  induction sq with
  | nil => intro s; rfl
  | cons m rest ih =>
      intro s
      obtain ⟨fr, fc⟩ := m
      simp only [escape_loop]
      cases hp : s.board fr fc with
      | none => exact ih s
      | some piece =>
          by_cases hpl : piece.player = player
          · simp only [hpl, if_true]
            have ht : (try_moves player fr fc piece s (get_piece_moves s fr fc)).2 = s :=
              try_moves_snd player fr fc piece _ s hp
            split
            · exact ht
            · rw [ht]; exact ih s
          · simp only [hpl, if_false]
            exact ih s

theorem can_escape_check_snd (s : GameState) (player : Int) :
    (can_escape_check s player).2 = s := by
  unfold can_escape_check
  split
  · rfl
  · exact escape_loop_snd player all_squares s

theorem is_checkmate_snd (s : GameState) (player : Int) :
    (is_checkmate s player).2 = s := by
  unfold is_checkmate
  split
  · exact can_escape_check_snd s player
  · rfl

theorem get_game_status_snd (s : GameState) : (get_game_status s).2 = s := by
  unfold get_game_status
  simp only
  rw [is_checkmate_snd s 1, is_checkmate_snd s 2]

theorem step_moves_shape (b : Board) (p row col : Int) :
    ∀ (dirs : List (Int × Int)) (x : Int × Int), x ∈ step_moves b p row col dirs →
      ∃ d ∈ dirs, x = (row + d.1, col + d.2) := by
  intro dirs
  induction dirs with
  | nil => simp [step_moves]
  | cons d rest ih =>
      intro x hx
      obtain ⟨dr, dc⟩ := d
      simp only [step_moves] at hx
      split at hx
      · rcases List.mem_cons.mp hx with h | h
        · exact ⟨(dr, dc), List.mem_cons_self _ _, h⟩
        · obtain ⟨d', hd', he⟩ := ih x h
          exact ⟨d', List.mem_cons_of_mem _ hd', he⟩
      · obtain ⟨d', hd', he⟩ := ih x hx
        exact ⟨d', List.mem_cons_of_mem _ hd', he⟩

theorem slide_loop_shape (b : Board) (p row col dr dc : Int) :
    ∀ (il : List Int) (x : Int × Int), x ∈ slide_loop b p row col dr dc il →
      ∃ i ∈ il, x = (row + dr * i, col + dc * i) := by
  intro il
  induction il with
  | nil => simp [slide_loop]
  | cons i rest ih =>
      intro x hx
      simp only [slide_loop] at hx
      split at hx
      · simp at hx
      · split at hx
        · split at hx
          · rcases List.mem_singleton.mp hx with rfl
            exact ⟨i, List.mem_cons_self _ _, rfl⟩
          · simp at hx
        · rcases List.mem_cons.mp hx with h | h
          · exact ⟨i, List.mem_cons_self _ _, h⟩
          · obtain ⟨i', hi', he⟩ := ih x h
            exact ⟨i', List.mem_cons_of_mem _ hi', he⟩

theorem slide_dirs_shape (b : Board) (p row col : Int) :
    ∀ (dirs : List (Int × Int)) (x : Int × Int), x ∈ slide_dirs b p row col dirs →
      ∃ d ∈ dirs, ∃ i ∈ range18, x = (row + d.1 * i, col + d.2 * i) := by
  intro dirs
  induction dirs with
  | nil => simp [slide_dirs]
  | cons d rest ih =>
      intro x hx
      obtain ⟨dr, dc⟩ := d
      simp only [slide_dirs] at hx
      rcases List.mem_append.mp hx with h | h
      · obtain ⟨i, hi, he⟩ := slide_loop_shape b p row col dr dc range18 x h
        exact ⟨(dr, dc), List.mem_cons_self _ _, i, hi, he⟩
      · obtain ⟨d', hd', he⟩ := ih x h
        exact ⟨d', List.mem_cons_of_mem _ hd', he⟩

theorem step_moves_not_self (b : Board) (p row col : Int) (dirs : List (Int × Int))
    (h : ∀ d ∈ dirs, ¬ (d.1 = 0 ∧ d.2 = 0)) :
    (row, col) ∉ step_moves b p row col dirs := by
  intro hx
  obtain ⟨d, hd, he⟩ := step_moves_shape b p row col dirs _ hx
  have h1 : row = row + d.1 ∧ col = col + d.2 := by
    constructor
    · exact congrArg Prod.fst he
    · exact congrArg Prod.snd he
  exact h d hd ⟨by omega, by omega⟩

theorem slide_loop_not_self (b : Board) (p row col dr dc : Int)
    (h : ¬ (dr = 0 ∧ dc = 0)) :
    (row, col) ∉ slide_loop b p row col dr dc range18 := by
  intro hx
  obtain ⟨i, hi, he⟩ := slide_loop_shape b p row col dr dc range18 _ hx
  have h1 : row = row + dr * i ∧ col = col + dc * i := by
    constructor
    · exact congrArg Prod.fst he
    · exact congrArg Prod.snd he
  have hiz : i ≠ 0 := by
    simp [range18] at hi
    omega
  have hdr : dr * i = 0 := by omega
  have hdc : dc * i = 0 := by omega
  rcases mul_eq_zero.mp hdr with h' | h'
  · rcases mul_eq_zero.mp hdc with h'' | h''
    · exact h ⟨h', h''⟩
    · exact hiz h''
  · exact hiz h'

theorem slide_dirs_not_self (b : Board) (p row col : Int) (dirs : List (Int × Int))
    (h : ∀ d ∈ dirs, ¬ (d.1 = 0 ∧ d.2 = 0)) :
    (row, col) ∉ slide_dirs b p row col dirs := by
  intro hx
  obtain ⟨d, hd, i, hi, he⟩ := slide_dirs_shape b p row col dirs _ hx
  have h1 : row = row + d.1 * i ∧ col = col + d.2 * i := by
    constructor
    · exact congrArg Prod.fst he
    · exact congrArg Prod.snd he
  have hiz : i ≠ 0 := by
    simp [range18] at hi
    omega
  have hdr : d.1 * i = 0 := by omega
  have hdc : d.2 * i = 0 := by omega
  apply h d hd
  constructor
  · rcases mul_eq_zero.mp hdr with h' | h'
    · exact h'
    · exact absurd h' hiz
  · rcases mul_eq_zero.mp hdc with h' | h'
    · exact h'
    · exact absurd h' hiz

theorem gold_dirs_nonzero (p : Int) : ∀ d ∈ gold_dirs p, ¬ (d.1 = 0 ∧ d.2 = 0) := by
  by_cases h : p = 2 <;> simp [gold_dirs, h]

theorem silver_dirs_nonzero (p : Int) : ∀ d ∈ silver_dirs p, ¬ (d.1 = 0 ∧ d.2 = 0) := by
  by_cases h : p = 2 <;> simp [silver_dirs, h]

theorem knight_dirs_nonzero (p : Int) : ∀ d ∈ knight_dirs p, ¬ (d.1 = 0 ∧ d.2 = 0) := by
  by_cases h : p = 1 <;> simp [knight_dirs, h]

theorem get_gold_moves_not_self (b : Board) (row col p : Int) :
    (row, col) ∉ get_gold_moves b row col p :=
  step_moves_not_self b p row col (gold_dirs p) (gold_dirs_nonzero p)

theorem moves_for_not_self (b : Board) (piece : ShogiPiece) (row col : Int) :
    (row, col) ∉ moves_for b piece row col := by
  obtain ⟨t, pl, pr⟩ := piece
  cases t with
  | fu =>
      cases pr with
      | true =>
          simp only [moves_for]
          rw [if_neg (by simp)]
          exact get_gold_moves_not_self b row col pl
      | false =>
          simp only [moves_for]
          rw [if_pos (by simp)]
          apply step_moves_not_self
          intro d hd
          rcases List.mem_singleton.mp hd with rfl
          by_cases h1 : pl = 1 <;> simp [h1]
  | ou => exact step_moves_not_self b pl row col king_dirs (by decide)
  | gyoku => exact step_moves_not_self b pl row col king_dirs (by decide)
  | kin => exact get_gold_moves_not_self b row col pl
  | gin =>
      cases pr with
      | true =>
          simp only [moves_for]
          rw [if_neg (by simp)]
          exact get_gold_moves_not_self b row col pl
      | false =>
          simp only [moves_for]
          rw [if_pos (by simp)]
          exact step_moves_not_self b pl row col (silver_dirs pl) (silver_dirs_nonzero pl)
  | kei =>
      cases pr with
      | true =>
          simp only [moves_for]
          rw [if_neg (by simp)]
          exact get_gold_moves_not_self b row col pl
      | false =>
          simp only [moves_for]
          rw [if_pos (by simp)]
          exact step_moves_not_self b pl row col (knight_dirs pl) (knight_dirs_nonzero pl)
  | kyo =>
      cases pr with
      | true =>
          simp only [moves_for]
          rw [if_neg (by simp)]
          exact get_gold_moves_not_self b row col pl
      | false =>
          simp only [moves_for]
          rw [if_pos (by simp)]
          apply slide_loop_not_self
          by_cases h1 : pl = 1 <;> simp [h1]
  | kaku =>
      cases pr with
      | false =>
          simp only [moves_for]
          rw [if_pos (by simp)]
          exact slide_dirs_not_self b pl row col _ (by decide)
      | true =>
          simp only [moves_for]
          rw [if_neg (by simp)]
          intro hx
          rcases List.mem_append.mp hx with h | h
          · unfold get_piece_moves_for_type at h
            rw [if_pos ⟨rfl, rfl⟩] at h
            exact slide_dirs_not_self b pl row col _ (by decide) h
          · exact step_moves_not_self b pl row col _ (by decide) h
  | hi =>
      cases pr with
      | false =>
          simp only [moves_for]
          rw [if_pos (by simp)]
          exact slide_dirs_not_self b pl row col _ (by decide)
      | true =>
          simp only [moves_for]
          rw [if_neg (by simp)]
          intro hx
          rcases List.mem_append.mp hx with h | h
          · unfold get_piece_moves_for_type at h
            rw [if_neg (by simp), if_pos ⟨rfl, rfl⟩] at h
            exact slide_dirs_not_self b pl row col _ (by decide) h
          · exact step_moves_not_self b pl row col _ (by decide) h

theorem get_piece_moves_not_self (s : GameState) (r c : Int) :
    (r, c) ∉ get_piece_moves s r c := by
  unfold get_piece_moves
  cases hp : s.board r c with
  | none => simp
  | some piece =>
      show (r, c) ∉ if piece.player ≠ s.current_player then [] else moves_for s.board piece r c
      by_cases h : piece.player ≠ s.current_player
      · simp [h]
      · rw [if_neg h]
        exact moves_for_not_self s.board piece r c

theorem split_on_dash_ne_nil : ∀ cs : List Char, split_on_dash cs ≠ [] := by
  intro cs
  induction cs with
  | nil => simp [split_on_dash]
  | cons c rest ih =>
      simp only [split_on_dash]
      split
      · simp
      · cases h : split_on_dash rest with
        | nil => simp
        | cons p ps => simp

theorem split_on_dash_single : ∀ (cs b : List Char),
    split_on_dash cs = [b] ↔ (cs = b ∧ '-' ∉ b) := by
  intro cs
  induction cs with
  | nil =>
      intro b
      simp only [split_on_dash]
      constructor
      · intro h
        injection h with h1 _
        subst h1
        exact ⟨rfl, by simp⟩
      · rintro ⟨h, -⟩
        rw [← h]
  | cons c rest ih =>
      intro b
      simp only [split_on_dash]
      by_cases hc : c = '-'
      · rw [if_pos hc]
        constructor
        · intro h
          injection h with _ h2
          exact absurd h2 (split_on_dash_ne_nil rest)
        · rintro ⟨h, hnb⟩
          exfalso
          apply hnb
          rw [← h, hc]
          exact List.mem_cons_self _ _
      · rw [if_neg hc]
        cases hsp : split_on_dash rest with
        | nil => exact absurd hsp (split_on_dash_ne_nil rest)
        | cons p ps =>
            constructor
            · intro h
              injection h with h1 h2
              obtain ⟨hr, hnp⟩ := (ih p).mp (by rw [hsp, h2])
              constructor
              · rw [hr]
                exact h1
              · intro hm
                rw [← h1] at hm
                rcases List.mem_cons.mp hm with h' | h'
                · exact hc h'.symm
                · exact hnp h'
            · rintro ⟨h, hnb⟩
              have hnr : '-' ∉ rest := by
                intro hm
                apply hnb
                rw [← h]
                exact List.mem_cons_of_mem _ hm
              have hone : split_on_dash rest = [rest] := (ih rest).mpr ⟨rfl, hnr⟩
              rw [hsp] at hone
              injection hone with e1 e2
              rw [e1, e2]
              show [c :: rest] = [b]
              rw [h]

theorem split_on_dash_pair : ∀ (cs a b : List Char),
    split_on_dash cs = [a, b] ↔ (cs = a ++ '-' :: b ∧ '-' ∉ a ∧ '-' ∉ b) := by
  intro cs
  induction cs with
  | nil =>
      intro a b
      constructor
      · intro h
        simp [split_on_dash] at h
      · rintro ⟨h, -, -⟩
        cases a <;> simp at h
  | cons c rest ih =>
      intro a b
      simp only [split_on_dash]
      by_cases hc : c = '-'
      · subst hc
        rw [if_pos rfl]
        constructor
        · intro h
          injection h with h1 h2
          obtain ⟨hr, hnb⟩ := (split_on_dash_single rest b).mp h2
          refine ⟨?_, ?_, hnb⟩
          · rw [← h1, hr]
            rfl
          · rw [← h1]
            simp
        · rintro ⟨h, hna, hnb⟩
          have ha : a = [] := by
            cases a with
            | nil => rfl
            | cons x xs =>
                simp only [List.cons_append, List.cons.injEq] at h
                exact absurd (by rw [h.1]; exact List.mem_cons_self _ _) hna
          subst ha
          simp only [List.nil_append, List.cons.injEq] at h
          have : split_on_dash rest = [b] := (split_on_dash_single rest b).mpr ⟨h.2, hnb⟩
          rw [this]
      · rw [if_neg hc]
        cases hsp : split_on_dash rest with
        | nil => exact absurd hsp (split_on_dash_ne_nil rest)
        | cons p ps =>
            constructor
            · intro h
              injection h with h1 h2
              have hpair : split_on_dash rest = [p, b] := by rw [hsp, h2]
              obtain ⟨hr, hnp, hnb⟩ := (ih p b).mp hpair
              refine ⟨?_, ?_, hnb⟩
              · rw [← h1, hr]
                rfl
              · rw [← h1]
                intro hm
                rcases List.mem_cons.mp hm with h' | h'
                · exact hc h'.symm
                · exact hnp h'
            · rintro ⟨h, hna, hnb⟩
              cases a with
              | nil =>
                  simp only [List.nil_append, List.cons.injEq] at h
                  exact absurd h.1 hc
              | cons x xs =>
                  simp only [List.cons_append, List.cons.injEq] at h
                  obtain ⟨hx, hrest⟩ := h
                  have hnxs : '-' ∉ xs := fun hm => hna (List.mem_cons_of_mem _ hm)
                  have hsp2 : split_on_dash rest = [xs, b] := (ih xs b).mpr ⟨hrest, hnxs, hnb⟩
                  rw [hsp] at hsp2
                  injection hsp2 with e1 e2
                  rw [e1, e2]
                  show [c :: xs, b] = [x :: xs, b]
                  rw [hx]

theorem is_valid_move_mem (s : GameState) (fr fc tr tc : Int) (piece : ShogiPiece)
    (hp : s.board fr fc = some piece) (hv : is_valid_move s fr fc tr tc = true) :
    piece.player = s.current_player ∧ (tr, tc) ∈ get_piece_moves s fr fc := by
  unfold is_valid_move at hv
  by_cases hval : (is_valid_position fr fc && is_valid_position tr tc) = true
  · rw [if_neg (not_not_intro hval)] at hv
    rw [hp] at hv
    simp at hv
    exact hv
  · rw [if_pos hval] at hv
    exact absurd hv (by simp)

/-- C1: in `pinned_gold_state` (Sente king (8,4), Sente gold (7,4), Gote rook
(0,4), Sente to move), the sideways gold move (7,4)→(7,3) leaves Sente's own
king attacked by the rook, yet `move_piece` accepts and executes it — and
the position after the move is one where the engine's own `is_in_check`
reports Sente in check. The self-check filter never fires because
`is_in_check(current_player)` calls `get_piece_moves` on opponent pieces,
which returns `[]` for any piece not owned by `current_player`. -/
theorem move_piece_accepts_self_check_exposure :
    (move_piece pinned_gold_state 7 4 7 3 false).1 = true ∧
      is_in_check (move_piece pinned_gold_state 7 4 7 3 false).2 1 = true := by
  constructor
  · decide
  · decide

/-- C2: in `pin_state` (Gote rook (0,4), Sente king (8,4), empty file
between, Sente to move) the rook's movement rule reaches the king's square
(8,4) — `get_piece_moves` run with the rook's owner to move contains it, and
the king is found at (8,4) — yet `is_in_check(1)` returns false, because the
ownership gate of `get_piece_moves` empties the move set of every opponent
piece while Sente is the player to move. This refutes the claimed
"if and only if some opponent piece's pseudo-legal destination set contains
the king's square". -/
theorem is_in_check_misses_attack_on_player_to_move :
    is_in_check pin_state 1 = false ∧
      pin_state.board 0 4 = some ⟨PieceType.hi, 2, false⟩ ∧
      find_king pin_state 1 = some (8, 4) ∧
      (8, 4) ∈ get_piece_moves { pin_state with current_player := 2 } 0 4 := by
  refine ⟨by decide, by decide, by decide, by decide⟩

/-- C5 counterexample: on a board with no Sente king, `find_king` returns
`None` and `is_in_check` returns the normal boolean answer `False`
("not in check") instead of failing: the claimed invariant-violation
failure does not exist in the code (`is_in_check` lines 374-376 return
`False` when `find_king` yields `None`). -/
theorem is_in_check_silently_false_without_king :
    find_king kingless_state 1 = none ∧ is_in_check kingless_state 1 = false := by
  refine ⟨by decide, by decide⟩

/-- C5 amended: whenever the queried player's king is absent from the board,
`is_in_check` returns `false` — the player is silently reported as not in
check; no error is raised. -/
theorem is_in_check_false_of_no_king (s : GameState) (player : Int)
    (h : find_king s player = none) : is_in_check s player = false := by
  unfold is_in_check
  rw [h]

/-- Witness for `is_in_check_false_of_no_king` at the concrete kingless
board, queried for Gote. -/
theorem is_in_check_false_of_no_king_witness :
    find_king kingless_state 2 = none ∧ is_in_check kingless_state 2 = false :=
  ⟨by decide, is_in_check_false_of_no_king kingless_state 2 (by decide)⟩

/-- C6 counterexample: the string "07-76" has the out-of-range file digit 0,
which the claim says is rejected; `parse_move` accepts it and returns
`from_col = 9 - 0 = 9`, an off-board column. -/
theorem parse_move_accepts_out_of_range_digit :
    parse_move ['0', '7', '-', '7', '6'] = some (6, 9, 5, 2) := by decide

/-- C6 amended: `parse_move` succeeds exactly on the character strings with
exactly one `'-'` whose two sides each start with at least two Unicode
decimal digit characters — the characters single-argument `int()` accepts,
full-width digits included (digit 0 also included: the digit values are not
range-checked, and characters after the first two of a side are ignored);
on success the result is `(from_row, from_col, to_row, to_col)` with
`row = rank_digit - 1` and `col = 9 - file_digit`. -/
theorem parse_move_characterization (cs : List Char) (fr fc tr tc : Int) :
    parse_move cs = some (fr, fc, tr, tc) ↔
      ∃ f0 f1 fs t0 t1 ts,
        cs = (f0 :: f1 :: fs) ++ '-' :: (t0 :: t1 :: ts) ∧
        '-' ∉ f0 :: f1 :: fs ∧ '-' ∉ t0 :: t1 :: ts ∧
        is_decimal_digit f0 = true ∧ is_decimal_digit f1 = true ∧
        is_decimal_digit t0 = true ∧ is_decimal_digit t1 = true ∧
        fr = digit_val f1 - 1 ∧ fc = 9 - digit_val f0 ∧
        tr = digit_val t1 - 1 ∧ tc = 9 - digit_val t0 := by
  constructor
  · intro h
    unfold parse_move at h
    cases hsp : split_on_dash cs with
    | nil => rw [hsp] at h; exact absurd h (by simp)
    | cons fp more =>
        rw [hsp] at h
        cases more with
        | nil => exact absurd h (by simp)
        | cons tp more2 =>
            cases more2 with
            | cons u v => exact absurd h (by simp)
            | nil =>
                cases fp with
                | nil => exact absurd h (by simp)
                | cons f0 fp1 =>
                    cases fp1 with
                    | nil => exact absurd h (by simp)
                    | cons f1 fs =>
                        cases tp with
                        | nil => exact absurd h (by simp)
                        | cons t0 tp1 =>
                            cases tp1 with
                            | nil => exact absurd h (by simp)
                            | cons t1 ts =>
                                have hif : (if (is_decimal_digit f0 && is_decimal_digit f1 &&
                                    is_decimal_digit t0 && is_decimal_digit t1) = true then
                                    some (digit_val f1 - 1, 9 - digit_val f0, digit_val t1 - 1, 9 - digit_val t0)
                                  else none) = some (fr, fc, tr, tc) := h
                                by_cases hd : (is_decimal_digit f0 && is_decimal_digit f1 &&
                                    is_decimal_digit t0 && is_decimal_digit t1) = true
                                · rw [if_pos hd] at hif
                                  simp only [Bool.and_eq_true] at hd
                                  obtain ⟨⟨⟨hd0, hd1⟩, hd2⟩, hd3⟩ := hd
                                  obtain ⟨hcs, hna, hnb⟩ :=
                                    (split_on_dash_pair cs (f0 :: f1 :: fs) (t0 :: t1 :: ts)).mp hsp
                                  injection hif with h'
                                  refine ⟨f0, f1, fs, t0, t1, ts, hcs, hna, hnb, hd0, hd1, hd2, hd3, ?_, ?_, ?_, ?_⟩
                                  · exact (congrArg (fun q => q.1) h').symm
                                  · exact (congrArg (fun q => q.2.1) h').symm
                                  · exact (congrArg (fun q => q.2.2.1) h').symm
                                  · exact (congrArg (fun q => q.2.2.2) h').symm
                                · rw [if_neg hd] at hif
                                  exact absurd hif (by simp)
  · rintro ⟨f0, f1, fs, t0, t1, ts, hcs, hna, hnb, h0, h1, h2, h3, e1, e2, e3, e4⟩
    have hsp : split_on_dash cs = [f0 :: f1 :: fs, t0 :: t1 :: ts] :=
      (split_on_dash_pair cs (f0 :: f1 :: fs) (t0 :: t1 :: ts)).mpr ⟨hcs, hna, hnb⟩
    unfold parse_move
    rw [hsp]
    show (if (is_decimal_digit f0 && is_decimal_digit f1 &&
        is_decimal_digit t0 && is_decimal_digit t1) = true then
        some (digit_val f1 - 1, 9 - digit_val f0, digit_val t1 - 1, 9 - digit_val t0)
      else none) = some (fr, fc, tr, tc)
    rw [if_pos (by simp [h0, h1, h2, h3])]
    rw [e1, e2, e3, e4]

/-- C7: for any piece and on-board destination row, `_can_promote` is false
when the piece is already promoted or its kind is unpromotable (the kings 王
and 玉 and the gold 金 are exactly the kinds missing from the promotable
list); otherwise it is true exactly when the row lies in the mover's
promotion zone — rows 0-2 for Sente (player 1), rows 6-8 for Gote
(player 2). -/
theorem can_promote_spec (piece : ShogiPiece) (row : Int)
    (hlow : 0 ≤ row) (hhigh : row ≤ 8) :
    can_promote piece row = true ↔
      (piece.promoted = false ∧
        piece.piece_type ≠ PieceType.ou ∧ piece.piece_type ≠ PieceType.gyoku ∧
        piece.piece_type ≠ PieceType.kin ∧
        ((piece.player = 1 ∧ row ≤ 2) ∨ (piece.player = 2 ∧ 6 ≤ row))) := by
  obtain ⟨t, pl, pr⟩ := piece
  simp only [can_promote]
  cases pr with
  | true => simp
  | false =>
      clear hlow hhigh
      cases t <;> simp <;> try (split_ifs <;> simp_all)
/-- Witness for `can_promote_spec`: an unpromoted Sente pawn may promote on
row 2 (both sides of the equivalence evaluated concretely). -/
theorem can_promote_spec_witness :
    can_promote ⟨PieceType.fu, 1, false⟩ 2 = true ∧
      ((ShogiPiece.promoted ⟨PieceType.fu, 1, false⟩) = false ∧
        (ShogiPiece.piece_type ⟨PieceType.fu, 1, false⟩) ≠ PieceType.ou ∧
        (ShogiPiece.piece_type ⟨PieceType.fu, 1, false⟩) ≠ PieceType.gyoku ∧
        (ShogiPiece.piece_type ⟨PieceType.fu, 1, false⟩) ≠ PieceType.kin ∧
        (((ShogiPiece.player ⟨PieceType.fu, 1, false⟩) = 1 ∧ (2 : Int) ≤ 2) ∨
          ((ShogiPiece.player ⟨PieceType.fu, 1, false⟩) = 2 ∧ (6 : Int) ≤ 2))) := by
  constructor
  · exact (can_promote_spec ⟨PieceType.fu, 1, false⟩ 2 (by decide) (by decide)).mpr
      (by refine ⟨rfl, by decide, by decide, by decide, Or.inl ⟨rfl, by decide⟩⟩)
  · exact (can_promote_spec ⟨PieceType.fu, 1, false⟩ 2 (by decide) (by decide)).mp (by decide)

/-- C8: `get_game_status` reports `game_over` exactly when `is_checkmate`
holds of some player, and the winner is the player not checkmated, Gote
(player 2) when both are simultaneously checkmated (Sente's checkmate takes
priority), and nobody when the game is not over. -/
theorem get_game_status_game_over_winner (s : GameState) :
    ((get_game_status s).1.game_over = true ↔
      ((is_checkmate s 1).1 = true ∨ (is_checkmate s 2).1 = true)) ∧
    ((is_checkmate s 1).1 = true → (get_game_status s).1.winner = some 2) ∧
    ((is_checkmate s 1).1 = false → (is_checkmate s 2).1 = true →
      (get_game_status s).1.winner = some 1) ∧
    ((is_checkmate s 1).1 = false → (is_checkmate s 2).1 = false →
      (get_game_status s).1.winner = none) := by
  simp only [get_game_status]
  rw [is_checkmate_snd s 1]
  cases h1 : (is_checkmate s 1).1 <;> cases h2 : (is_checkmate s 2).1 <;> simp [h1, h2]

/-- C9: the move generator yields the empty list for an empty square and for
any piece not owned by `current_player`: destinations are produced only for
the side to move. -/
theorem get_piece_moves_empty_or_off_turn_nil (s : GameState) (row col : Int) :
    (s.board row col = none → get_piece_moves s row col = []) ∧
    (∀ piece : ShogiPiece, s.board row col = some piece →
      piece.player ≠ s.current_player → get_piece_moves s row col = []) := by
  constructor
  · intro h
    unfold get_piece_moves
    rw [h]
  · intro piece hp hne
    exact get_piece_moves_opponent_nil s row col piece hp hne

/-- C10: the query operations mutate nothing: `can_escape_check`,
`is_checkmate` and `get_game_status` return the exact state they were given
(every simulated move is undone on every path; `is_in_check`,
`get_piece_moves` and `find_king` contain no assignment and are embedded as
pure functions). -/
theorem queries_preserve_state (s : GameState) (player : Int) :
    (can_escape_check s player).2 = s ∧ (is_checkmate s player).2 = s ∧
      (get_game_status s).2 = s := by
  exact ⟨can_escape_check_snd s player, is_checkmate_snd s player, get_game_status_snd s⟩

theorem is_valid_move_false_of (s : GameState) (fr fc tr tc : Int)
    (h : ¬ ((is_valid_position fr fc && is_valid_position tr tc) = true) ∨
         s.board fr fc = none ∨
         (∀ piece : ShogiPiece, s.board fr fc = some piece →
           piece.player ≠ s.current_player) ∨
         (tr, tc) ∉ get_piece_moves s fr fc) :
    is_valid_move s fr fc tr tc = false := by
  unfold is_valid_move
  by_cases hval : (is_valid_position fr fc && is_valid_position tr tc) = true
  · rw [if_neg (not_not_intro hval)]
    cases hp : s.board fr fc with
    | none => rfl
    | some piece =>
        rcases h with h | h | h | h
        · exact absurd hval h
        · rw [hp] at h
          exact Option.noConfusion h
        · simp [h piece hp]
        · simp [h]
  · rw [if_pos hval]

theorem move_piece_early_reject (s : GameState) (fr fc tr tc : Int) (promote : Bool)
    (h : ¬ ((is_valid_position fr fc && is_valid_position tr tc) = true) ∨
         s.board fr fc = none ∨
         (∀ piece : ShogiPiece, s.board fr fc = some piece →
           piece.player ≠ s.current_player) ∨
         (tr, tc) ∉ get_piece_moves s fr fc) :
    move_piece s fr fc tr tc promote = (false, s) := by
  unfold move_piece
  by_cases hval : (is_valid_position fr fc && is_valid_position tr tc) = true
  · rw [if_neg (not_not_intro hval)]
    cases hp : s.board fr fc with
    | none => rfl
    | some piece =>
        rcases h with h | h | h | h
        · exact absurd hval h
        · rw [hp] at h
          exact Option.noConfusion h
        · simp [h piece hp]
        · by_cases hown : piece.player ≠ s.current_player
          · simp [hown]
          · simp [hown, h]
  · rw [if_pos hval]

theorem move_piece_with_promotion_reject (s : GameState) (fr fc tr tc : Int)
    (promote : Bool) (hvm : is_valid_move s fr fc tr tc = false) :
    move_piece_with_promotion s fr fc tr tc promote = (false, s) := by
  unfold move_piece_with_promotion
  rw [if_pos (by simp [hvm])]

/-- C4 counterexample: the request (7,4)→(7,3) in `pinned_gold_state`
exposes Sente's own king to the Gote rook (see
`move_piece_accepts_self_check_exposure`), so by the claim it should be
rejected without mutation; instead `move_piece` reports success and the
board is mutated (the source square is emptied). -/
theorem move_piece_mutates_on_king_exposing_move :
    (move_piece pinned_gold_state 7 4 7 3 false).1 = true ∧
      (move_piece pinned_gold_state 7 4 7 3 false).2.board 7 4 ≠
        pinned_gold_state.board 7 4 := by
  refine ⟨by decide, by decide⟩

/-- C4 amended: a move request failing the preconditions that the code
actually checks — source or destination off-board, source empty, source
piece not owned by `current_player`, or destination not in the piece's move
set — is rejected by both executors with the state returned exactly as it
was (the would-expose-own-king condition is not among the rejected cases:
such moves are executed, see the counterexample). -/
theorem move_piece_rejected_no_mutation (s : GameState) (fr fc tr tc : Int)
    (promote : Bool)
    (h : ¬ ((is_valid_position fr fc && is_valid_position tr tc) = true) ∨
         s.board fr fc = none ∨
         (∀ piece : ShogiPiece, s.board fr fc = some piece →
           piece.player ≠ s.current_player) ∨
         (tr, tc) ∉ get_piece_moves s fr fc) :
    move_piece s fr fc tr tc promote = (false, s) ∧
      move_piece_with_promotion s fr fc tr tc promote = (false, s) :=
  ⟨move_piece_early_reject s fr fc tr tc promote h,
    move_piece_with_promotion_reject s fr fc tr tc promote
      (is_valid_move_false_of s fr fc tr tc h)⟩

/-- Witness for `move_piece_rejected_no_mutation`: moving from the empty
square (4,4) of the initial position is rejected by both executors and the
state is returned unchanged. -/
theorem move_piece_rejected_no_mutation_witness :
    initial_state.board 4 4 = none ∧
      move_piece initial_state 4 4 0 0 false = (false, initial_state) ∧
      move_piece_with_promotion initial_state 4 4 0 0 false = (false, initial_state) :=
  ⟨by decide,
    (move_piece_rejected_no_mutation initial_state 4 4 0 0 false
      (Or.inr (Or.inl (by decide)))).1,
    (move_piece_rejected_no_mutation initial_state 4 4 0 0 false
      (Or.inr (Or.inl (by decide)))).2⟩

/-- C3 counterexample: a Gote-facing promotion gate is absent in
`move_piece_with_promotion` — moving the lone Sente gold (4,4)→(3,4) with
`promote = True` succeeds and sets the gold's promoted flag, although
`_can_promote` is false for a gold at any row (gold is not promotable); by
the claim the flag should be set only if `promote` is true AND
`can_promote` holds. -/
theorem move_piece_with_promotion_promotes_gold :
    can_promote ⟨PieceType.kin, 1, false⟩ 3 = false ∧
      (move_piece_with_promotion lone_gold_state 4 4 3 4 true).1 = true ∧
      (move_piece_with_promotion lone_gold_state 4 4 3 4 true).2.board 3 4 =
        some ⟨PieceType.kin, 1, true⟩ := by
  refine ⟨by decide, by decide, by decide⟩

/-- C3 amended: on a successful `move_piece_with_promotion`, the captured
piece (if the destination was occupied) is appended to the mover's hand with
its promoted flag cleared, the moving piece is relocated (the source square
becomes empty), the moved piece's promoted flag is set if and only if
`promote` is true (`can_promote` is NOT consulted by this executor), and
`current_player` flips to the other player. -/
theorem move_piece_with_promotion_success_effects
    (s : GameState) (from_row from_col to_row to_col : Int) (promote : Bool)
    (piece : ShogiPiece) (hp : s.board from_row from_col = some piece)
    (hs : (move_piece_with_promotion s from_row from_col to_row to_col promote).1 = true) :
    (move_piece_with_promotion s from_row from_col to_row to_col promote).2.board to_row to_col =
        some { piece with promoted := promote || piece.promoted } ∧
    (move_piece_with_promotion s from_row from_col to_row to_col promote).2.board from_row from_col =
        none ∧
    (move_piece_with_promotion s from_row from_col to_row to_col promote).2.current_player =
        (if s.current_player = 1 then 2 else 1) ∧
    (move_piece_with_promotion s from_row from_col to_row to_col promote).2.captured_pieces =
      (match s.board to_row to_col with
       | some cp => fun k => if k = s.current_player then
             s.captured_pieces k ++ [{ cp with promoted := false }]
           else s.captured_pieces k
       | none => s.captured_pieces) := by
  by_cases hvm : is_valid_move s from_row from_col to_row to_col = true
  case neg =>
    rw [Bool.not_eq_true] at hvm
    rw [move_piece_with_promotion_reject s from_row from_col to_row to_col promote hvm] at hs
    exact absurd hs (by simp)
  case pos =>
    obtain ⟨hown, hmem⟩ := is_valid_move_mem s from_row from_col to_row to_col piece hp hvm
    have hpair : (to_row, to_col) ≠ (from_row, from_col) := by
      intro he
      rw [he] at hmem
      exact get_piece_moves_not_self s from_row from_col hmem
    have hne1 : ¬ (to_row = from_row ∧ to_col = from_col) := by
      rintro ⟨e1, e2⟩
      exact hpair (by rw [e1, e2])
    have hne2 : ¬ (from_row = to_row ∧ from_col = to_col) := by
      rintro ⟨e1, e2⟩
      exact hpair (by rw [e1, e2])
    have hchk : is_in_check
        (set_cell (set_cell s to_row to_col (some piece)) from_row from_col none)
        s.current_player = false := is_in_check_self _
    simp only [move_piece_with_promotion, if_neg (not_not_intro hvm), hp, hchk,
      Bool.false_eq_true, if_false]
    rw [simulate_restore s from_row from_col to_row to_col piece hp]
    cases hcp : s.board to_row to_col with
    | none =>
        cases promote with
        | false =>
            refine ⟨?_, ?_, ?_, ?_⟩
            · show (set_cell (set_cell s to_row to_col (some piece)) from_row from_col
                  none).board to_row to_col = _
              rw [set_cell_board_ne _ from_row from_col none to_row to_col hne1,
                set_cell_board_self]
              cases piece
              simp
            · show (set_cell (set_cell s to_row to_col (some piece)) from_row from_col
                  none).board from_row from_col = none
              rw [set_cell_board_self]
            · rfl
            · rfl
        | true =>
            refine ⟨?_, ?_, ?_, ?_⟩
            · show (set_cell (set_cell (set_cell s to_row to_col (some piece)) from_row
                  from_col none) to_row to_col
                  (some { piece with promoted := true })).board to_row to_col = _
              rw [set_cell_board_self]
              cases piece
              simp
            · show (set_cell (set_cell (set_cell s to_row to_col (some piece)) from_row
                  from_col none) to_row to_col
                  (some { piece with promoted := true })).board from_row from_col = none
              rw [set_cell_board_ne _ to_row to_col _ from_row from_col hne2,
                set_cell_board_self]
            · rfl
            · rfl
    | some cp =>
        cases promote with
        | false =>
            refine ⟨?_, ?_, ?_, ?_⟩
            · show (set_cell (set_cell _ to_row to_col (some piece)) from_row
                  from_col none).board to_row to_col = _
              rw [set_cell_board_ne _ from_row from_col none to_row to_col hne1,
                set_cell_board_self]
              cases piece
              simp
            · show (set_cell (set_cell _ to_row to_col (some piece)) from_row
                  from_col none).board from_row from_col = none
              rw [set_cell_board_self]
            · rfl
            · rfl
        | true =>
            refine ⟨?_, ?_, ?_, ?_⟩
            · show (set_cell (set_cell (set_cell _ to_row to_col (some piece)) from_row
                  from_col none) to_row to_col
                  (some { piece with promoted := true })).board to_row to_col = _
              rw [set_cell_board_self]
              cases piece
              simp
            · show (set_cell (set_cell (set_cell _ to_row to_col (some piece)) from_row
                  from_col none) to_row to_col
                  (some { piece with promoted := true })).board from_row from_col = none
              rw [set_cell_board_ne _ to_row to_col _ from_row from_col hne2,
                set_cell_board_self]
            · rfl
            · rfl

/-- A Sente pawn at (2,2) facing a Gote pawn at (1,2), Sente to move: the
capture (2,2)→(1,2) succeeds and may promote. -/
def pawn_capture_state : GameState :=
  { board := fun r c =>
      if r = 2 ∧ c = 2 then some ⟨PieceType.fu, 1, false⟩
      else if r = 1 ∧ c = 2 then some ⟨PieceType.fu, 2, false⟩
      else none
    captured_pieces := fun _ => []
    current_player := 1 }

/-- Witness for `move_piece_with_promotion_success_effects`: the concrete
pawn capture (2,2)→(1,2) with `promote = true` in `pawn_capture_state`. -/
theorem move_piece_with_promotion_success_effects_witness :
    (move_piece_with_promotion pawn_capture_state 2 2 1 2 true).2.board 1 2 =
        some { (⟨PieceType.fu, 1, false⟩ : ShogiPiece) with promoted := true || false } ∧
    (move_piece_with_promotion pawn_capture_state 2 2 1 2 true).2.board 2 2 = none ∧
    (move_piece_with_promotion pawn_capture_state 2 2 1 2 true).2.current_player =
        (if pawn_capture_state.current_player = 1 then 2 else 1) ∧
    (move_piece_with_promotion pawn_capture_state 2 2 1 2 true).2.captured_pieces =
      (match pawn_capture_state.board 1 2 with
       | some cp => fun k => if k = pawn_capture_state.current_player then
             pawn_capture_state.captured_pieces k ++ [{ cp with promoted := false }]
           else pawn_capture_state.captured_pieces k
       | none => pawn_capture_state.captured_pieces) :=
  move_piece_with_promotion_success_effects pawn_capture_state 2 2 1 2 true
    ⟨PieceType.fu, 1, false⟩ (by decide) (by decide)
